import Mathlib

/-!
Verification development for the fantasy-football draft-analysis repository.

The Python sources are shallowly embedded: a `Pick` record models one row of
the draft DataFrame, Polars/DuckDB pipelines become explicit list
transformations (group-by in first-occurrence order, stable insertion sort,
order-preserving deduplication), machine floats used only as exact averages
of integer columns become `Rat`, and Python exceptions become `Option`.
-/

/-! ### Generic list machinery shared by the embedded pipelines -/

/-- Reference form of first-occurrence deduplication, convenient for proofs
(filters later duplicates away before recursing). -/
def firstKeysSpec {β : Type} [DecidableEq β] : List β → List β
  | [] => []
  | k :: ks => k :: firstKeysSpec (ks.filter (fun x => x ≠ k))
termination_by l => l.length
decreasing_by
  simp only [List.length_cons]
  exact Nat.lt_succ_of_le (List.length_filter_le _ _)

theorem firstKeysSpec_mem {β : Type} [DecidableEq β] (l : List β) (k : β) :
    k ∈ firstKeysSpec l ↔ k ∈ l := by
  induction l using firstKeysSpec.induct with
  | case1 => simp [firstKeysSpec]
  | case2 a ks ih =>
    simp only [firstKeysSpec, List.mem_cons, ih, List.mem_filter]
    by_cases h : k = a <;> simp [h]

theorem firstKeysSpec_nodup {β : Type} [DecidableEq β] (l : List β) :
    (firstKeysSpec l).Nodup := by
  induction l using firstKeysSpec.induct with
  | case1 => simp [firstKeysSpec]
  | case2 a ks ih =>
    simp only [firstKeysSpec, List.nodup_cons]
    refine ⟨fun hmem => ?_, ih⟩
    have h : a ∈ ks.filter (fun x => x ≠ a) := (firstKeysSpec_mem _ _).1 hmem
    have h2 := (List.mem_filter.1 h).2
    simp at h2

theorem filter_comm_aux {β : Type} (p q : β → Bool) (l : List β) :
    (l.filter p).filter q = (l.filter q).filter p := by
  rw [List.filter_filter, List.filter_filter]
  apply List.filter_congr
  intro x _
  exact Bool.and_comm (q x) (p x)

theorem firstKeysSpec_filter {β : Type} [DecidableEq β] (p : β → Bool)
    (l : List β) :
    firstKeysSpec (l.filter p) = (firstKeysSpec l).filter p := by
  induction l using firstKeysSpec.induct with
  | case1 => simp [firstKeysSpec]
  | case2 a ks ih =>
    by_cases hp : p a
    · calc firstKeysSpec ((a :: ks).filter p)
          = firstKeysSpec (a :: ks.filter p) := by rw [List.filter_cons_of_pos hp]
        _ = a :: firstKeysSpec ((ks.filter p).filter (fun x => x ≠ a)) := by
            rw [firstKeysSpec]
        _ = a :: firstKeysSpec ((ks.filter (fun x => x ≠ a)).filter p) := by
            rw [filter_comm_aux]
        _ = a :: (firstKeysSpec (ks.filter (fun x => x ≠ a))).filter p := by
            rw [ih]
        _ = (a :: firstKeysSpec (ks.filter (fun x => x ≠ a))).filter p := by
            rw [List.filter_cons_of_pos hp]
        _ = (firstKeysSpec (a :: ks)).filter p := by rw [firstKeysSpec]
    · have hnoa : ∀ x ∈ ks.filter p, decide (x ≠ a) = true := by
        intro x hx
        rcases List.mem_filter.1 hx with ⟨-, hpx⟩
        simp only [decide_eq_true_eq]
        rintro rfl
        exact hp hpx
      have hself : (ks.filter p).filter (fun x => x ≠ a) = ks.filter p :=
        List.filter_eq_self.2 hnoa
      calc firstKeysSpec ((a :: ks).filter p)
          = firstKeysSpec (ks.filter p) := by
            rw [List.filter_cons_of_neg (by simpa using hp)]
        _ = firstKeysSpec ((ks.filter p).filter (fun x => x ≠ a)) := by
            rw [hself]
        _ = firstKeysSpec ((ks.filter (fun x => x ≠ a)).filter p) := by
            rw [filter_comm_aux]
        _ = (firstKeysSpec (ks.filter (fun x => x ≠ a))).filter p := ih
        _ = (a :: firstKeysSpec (ks.filter (fun x => x ≠ a))).filter p := by
            rw [List.filter_cons_of_neg (by simpa using hp)]
        _ = (firstKeysSpec (a :: ks)).filter p := by rw [firstKeysSpec]

/-- Structural worker for `firstKeys`: carries the set of keys already seen. -/
def firstKeysAux {β : Type} [DecidableEq β] (seen : List β) : List β → List β
  | [] => []
  | k :: ks =>
    if k ∈ seen then firstKeysAux seen ks
    else k :: firstKeysAux (k :: seen) ks

/-- Distinct values of a list in first-occurrence order (the deterministic
reading of a group-by key enumeration or of `unique()` on a column). -/
def firstKeys {β : Type} [DecidableEq β] (l : List β) : List β :=
  firstKeysAux [] l

theorem firstKeysAux_eq {β : Type} [DecidableEq β] (l seen : List β) :
    firstKeysAux seen l = firstKeysSpec (l.filter (fun x => x ∉ seen)) := by
  induction l generalizing seen with
  | nil => simp [firstKeysAux, firstKeysSpec]
  | cons k ks ih =>
    by_cases h : k ∈ seen
    · rw [firstKeysAux, if_pos h, List.filter_cons_of_neg (by simpa using h), ih]
    · rw [firstKeysAux, if_neg h, List.filter_cons_of_pos (by simpa using h),
        firstKeysSpec, ih]
      congr 1
      congr 1
      rw [List.filter_filter]
      apply List.filter_congr
      intro x _
      simp only [List.mem_cons, decide_not]
      by_cases hx : x = k
      · simp [hx]
      · by_cases hxs : x ∈ seen <;> simp [hx, hxs]

theorem firstKeys_eq_spec {β : Type} [DecidableEq β] (l : List β) :
    firstKeys l = firstKeysSpec l := by
  rw [firstKeys, firstKeysAux_eq]
  congr 1
  apply List.filter_eq_self.2
  intro x _
  simp

theorem firstKeys_mem {β : Type} [DecidableEq β] (l : List β) (k : β) :
    k ∈ firstKeys l ↔ k ∈ l := by
  rw [firstKeys_eq_spec]
  exact firstKeysSpec_mem l k

theorem firstKeys_nodup {β : Type} [DecidableEq β] (l : List β) :
    (firstKeys l).Nodup := by
  rw [firstKeys_eq_spec]
  exact firstKeysSpec_nodup l

theorem firstKeys_eq_nil_iff {β : Type} [DecidableEq β] (l : List β) :
    firstKeys l = [] ↔ l = [] := by
  rw [firstKeys_eq_spec]
  cases l with
  | nil => simp [firstKeysSpec]
  | cons a as => simp [firstKeysSpec]

theorem firstKeys_filter {β : Type} [DecidableEq β] (p : β → Bool) (l : List β) :
    firstKeys (l.filter p) = (firstKeys l).filter p := by
  rw [firstKeys_eq_spec, firstKeys_eq_spec]
  exact firstKeysSpec_filter p l

/-- Group a list by a key, keys in first-occurrence order; each group carries
the full sublist of elements sharing that key (Polars `group_by` read
deterministically). -/
def groupByKey {α β : Type} [DecidableEq β] (key : α → β) (l : List α) :
    List (β × List α) :=
  (firstKeys (l.map key)).map (fun k => (k, l.filter (fun a => key a = k)))

theorem groupByKey_mem_key {α β : Type} [DecidableEq β] (key : α → β)
    (l : List α) (k : β) :
    (∃ g ∈ groupByKey key l, g.1 = k) ↔ k ∈ l.map key := by
  constructor
  · rintro ⟨g, hg, rfl⟩
    rcases List.mem_map.1 hg with ⟨k', hk', hgk⟩
    have : g.1 = k' := by rw [← hgk]
    rw [this]
    exact (firstKeys_mem _ _).1 hk'
  · intro hk
    exact ⟨(k, l.filter (fun a => key a = k)),
      List.mem_map.2 ⟨k, (firstKeys_mem _ _).2 hk, rfl⟩, rfl⟩

theorem groupByKey_rows {α β : Type} [DecidableEq β] (key : α → β)
    (l : List α) (g : β × List α) (hg : g ∈ groupByKey key l) :
    g.2 = l.filter (fun a => key a = g.1) := by
  rcases List.mem_map.1 hg with ⟨k, _, rfl⟩
  rfl

theorem groupByKey_rows_sub {α β : Type} [DecidableEq β] (key : α → β)
    (l : List α) (g : β × List α) (hg : g ∈ groupByKey key l) (a : α)
    (ha : a ∈ g.2) : a ∈ l := by
  rw [groupByKey_rows key l g hg] at ha
  exact (List.mem_filter.1 ha).1

theorem groupByKey_rows_key {α β : Type} [DecidableEq β] (key : α → β)
    (l : List α) (g : β × List α) (hg : g ∈ groupByKey key l) (a : α)
    (ha : a ∈ g.2) : key a = g.1 := by
  rw [groupByKey_rows key l g hg] at ha
  simpa using (List.mem_filter.1 ha).2

theorem groupByKey_rows_ne_nil {α β : Type} [DecidableEq β] (key : α → β)
    (l : List α) (g : β × List α) (hg : g ∈ groupByKey key l) : g.2 ≠ [] := by
  rcases List.mem_map.1 hg with ⟨k, hk, rfl⟩
  have hkmem : k ∈ l.map key := (firstKeys_mem _ _).1 hk
  rcases List.mem_map.1 hkmem with ⟨a, ha, rfl⟩
  intro hnil
  have hnil' : l.filter (fun a' => key a' = key a) = [] := hnil
  have hmem : a ∈ l.filter (fun a' => key a' = key a) :=
    List.mem_filter.2 ⟨ha, by simp⟩
  rw [hnil'] at hmem
  exact absurd hmem (List.not_mem_nil a)

/-- Filtering by a predicate that depends only on the key commutes with
grouping: row-level `WHERE` before `GROUP BY` equals group-level filtering. -/
theorem filter_map_comm {α β : Type} (f : α → β) (p : β → Bool) (l : List α) :
    (l.map f).filter p = (l.filter (fun a => p (f a))).map f := by
  induction l with
  | nil => rfl
  | cons a as ih =>
    by_cases h : p (f a) <;> simp [List.filter_cons, h, ih]

theorem groupByKey_filter {α β : Type} [DecidableEq β] (key : α → β)
    (q : β → Bool) (l : List α) :
    groupByKey key (l.filter (fun a => q (key a)))
      = (groupByKey key l).filter (fun g => q g.1) := by
  unfold groupByKey
  have hmap : (l.filter (fun a => q (key a))).map key = (l.map key).filter q := by
    induction l with
    | nil => simp
    | cons a as ih =>
      by_cases h : q (key a) <;> simp [List.filter_cons, h, ih]
  rw [hmap, firstKeys_filter,
    filter_map_comm (fun k => (k, l.filter (fun a => key a = k)))
      (fun g => q g.1) (firstKeys (l.map key))]
  apply List.map_congr_left
  intro k hk
  rcases List.mem_filter.1 hk with ⟨-, hq⟩
  have : (l.filter (fun a => q (key a))).filter (fun a => key a = k)
      = l.filter (fun a => key a = k) := by
    rw [filter_comm_aux]
    apply List.filter_eq_self.2
    intro x hx
    rcases List.mem_filter.1 hx with ⟨-, hkx⟩
    have hxk : key x = k := by simpa using hkx
    simpa [hxk] using hq
  rw [this]

/-- One-per-key deduplication keeping the last occurrence, preserving the
relative order of the kept rows (`unique(subset=…, keep="last")`). -/
def uniqueKeepLast {α β : Type} [DecidableEq β] (key : α → β) : List α → List α
  | [] => []
  | a :: as =>
    if key a ∈ as.map key then uniqueKeepLast key as
    else a :: uniqueKeepLast key as

theorem uniqueKeepLast_sublist {α β : Type} [DecidableEq β] (key : α → β)
    (l : List α) : (uniqueKeepLast key l).Sublist l := by
  induction l with
  | nil => simp [uniqueKeepLast]
  | cons a as ih =>
    by_cases h : key a ∈ as.map key
    · simp only [uniqueKeepLast, if_pos h]
      exact ih.cons a
    · simp only [uniqueKeepLast, if_neg h]
      exact ih.cons₂ a

theorem uniqueKeepLast_mem {α β : Type} [DecidableEq β] (key : α → β)
    (l : List α) (a : α) (ha : a ∈ uniqueKeepLast key l) : a ∈ l :=
  (uniqueKeepLast_sublist key l).mem ha

theorem uniqueKeepLast_key_nodup {α β : Type} [DecidableEq β] (key : α → β)
    (l : List α) : ((uniqueKeepLast key l).map key).Nodup := by
  induction l with
  | nil => simp [uniqueKeepLast]
  | cons a as ih =>
    by_cases h : key a ∈ as.map key
    · simp only [uniqueKeepLast]
      rw [if_pos h]
      exact ih
    · simp only [uniqueKeepLast]
      rw [if_neg h]
      simp only [List.map_cons, List.nodup_cons]
      refine ⟨fun hmem => h ?_, ih⟩
      rcases List.mem_map.1 hmem with ⟨b, hb, hkb⟩
      exact hkb ▸ List.mem_map.2 ⟨b, uniqueKeepLast_mem key as b hb, rfl⟩

theorem uniqueKeepLast_key_mem {α β : Type} [DecidableEq β] (key : α → β)
    (l : List α) (k : β) :
    k ∈ (uniqueKeepLast key l).map key ↔ k ∈ l.map key := by
  induction l with
  | nil => simp [uniqueKeepLast]
  | cons a as ih =>
    simp only [uniqueKeepLast]
    by_cases h : key a ∈ as.map key
    · rw [if_pos h]
      simp only [List.map_cons, List.mem_cons]
      rw [ih]
      constructor
      · exact Or.inr
      · rintro (rfl | hk)
        · exact h
        · exact hk
    · rw [if_neg h]
      simp only [List.map_cons, List.mem_cons]
      rw [ih]

/-- On a list sorted ascending, the row kept for each key is a maximum among
the rows carrying that key: keep-last after an ascending sort selects the
latest representative. -/
theorem uniqueKeepLast_keeps_last {α β : Type} [DecidableEq β] (key : α → β)
    (r : α → α → Prop) [IsTotal α r] (l : List α) (hs : l.Sorted r)
    (b : α) (hb : b ∈ uniqueKeepLast key l) (a : α) (ha : a ∈ l)
    (hk : key a = key b) : r a b := by
  induction l with
  | nil => exact absurd hb (by simp [uniqueKeepLast])
  | cons x xs ih =>
    have hsx : xs.Sorted r := hs.of_cons
    have hrel : ∀ y ∈ xs, r x y := List.rel_of_sorted_cons hs
    by_cases h : key x ∈ xs.map key
    · simp only [uniqueKeepLast] at hb
      rw [if_pos h] at hb
      rcases List.mem_cons.1 ha with rfl | hax
      · exact hrel b (uniqueKeepLast_mem key xs b hb)
      · exact ih hsx hb hax
    · simp only [uniqueKeepLast] at hb
      rw [if_neg h] at hb
      rcases List.mem_cons.1 hb with rfl | hbx
      · rcases List.mem_cons.1 ha with rfl | hax
        · rcases IsTotal.total (r := r) a a with h' | h' <;> exact h'
        · exact absurd (hk ▸ List.mem_map.2 ⟨a, hax, rfl⟩) h
      · rcases List.mem_cons.1 ha with rfl | hax
        · exact hrel b (uniqueKeepLast_mem key xs b hbx)
        · exact ih hsx hbx hax

/-- Association-list lookup by key (left-join probe). -/
def lookupKey {κ ν : Type} [DecidableEq κ] (l : List (κ × ν)) (k : κ) :
    Option ν :=
  (l.find? (fun kv => kv.1 = k)).map (fun kv => kv.2)

theorem lookupKey_keys {κ ν : Type} [DecidableEq κ] (K : List κ) (f : κ → ν)
    (k : κ) :
    lookupKey (K.map (fun k' => (k', f k'))) k
      = if k ∈ K then some (f k) else none := by
  induction K with
  | nil => simp [lookupKey]
  | cons a as ih =>
    by_cases h : a = k
    · subst h
      simp [lookupKey, List.find?_cons]
    · have : ((fun kv : κ × ν => decide (kv.1 = k)) (a, f a)) = false := by
        simpa using h
      simp only [lookupKey, List.map_cons, List.find?_cons, this]
      rw [show (lookupKey (as.map (fun k' => (k', f k'))) k
          = ((as.map (fun k' => (k', f k'))).find?
              (fun kv => kv.1 = k)).map (fun kv => kv.2)) from rfl] at ih
      rw [ih]
      simp [List.mem_cons, Ne.symm h]

/-! ### Character and string primitives (Python `str` semantics on ASCII) -/

/-- Python `str.lower` on one character (ASCII range, which covers the
player-name data). -/
def lowerChar (c : Char) : Char :=
  if 'A' ≤ c ∧ c ≤ 'Z' then Char.ofNat (c.toNat + 32) else c

/-- Python `s.lower()` as a character-list transformation. -/
def lowerStr (s : List Char) : List Char :=
  s.map lowerChar

/-- Does `hay` start with `needle`? -/
def matchesAt : List Char → List Char → Bool
  | [], _ => true
  | _ :: _, [] => false
  | a :: as, b :: bs => a = b && matchesAt as bs

/-- Substring containment on character lists (`in` / `str.contains` with a
literal pattern). -/
def hasSubstr (needle : List Char) : List Char → Bool
  | [] => matchesAt needle []
  | b :: bs => matchesAt needle (b :: bs) || hasSubstr needle bs

/-- SQL `LIKE` pattern matching, fuel-indexed so the recursion is structural:
every step shrinks the pattern or the string, so `p.length + s.length + 1`
fuel always suffices and the fuel-exhausted case is unreachable. -/
def likeMatchF : Nat → List Char → List Char → Bool
  | 0, p, s => p.isEmpty && s.isEmpty
  | fuel + 1, p, s =>
    match p, s with
    | [], s' => s'.isEmpty
    | '%' :: ps, s' =>
      likeMatchF fuel ps s' ||
        (match s' with
         | [] => false
         | _ :: t => likeMatchF fuel ('%' :: ps) t)
    | '_' :: ps, s' =>
      (match s' with
       | [] => false
       | _ :: t => likeMatchF fuel ps t)
    | c :: ps, s' =>
      (match s' with
       | [] => false
       | d :: t => c = d && likeMatchF fuel ps t)

/-- SQL `LIKE`: `%` matches any run, `_` one character. -/
def likeMatch (p s : List Char) : Bool :=
  likeMatchF (p.length + s.length + 1) p s

/-- Byte-wise lexicographic comparison of character lists (the binary string
order Polars uses to sort string columns). -/
def charsLE : List Char → List Char → Bool
  | [], _ => true
  | _ :: _, [] => false
  | a :: as, b :: bs => if a = b then charsLE as bs else decide (a < b)

/-- String order used for `players_sorted` and for sorted position columns. -/
def strLEb (a b : String) : Bool :=
  charsLE a.data b.data

/-! ### Rational helpers (exact readings of the float aggregations) -/

/-- Mean of a list of integers (`AVG(col)` / `pl.mean`), exact in `ℚ`.
Only ever applied to nonempty lists in the embedded pipelines. -/
def ratMean (l : List Int) : ℚ :=
  (l.sum : ℚ) / (l.length : ℚ)

/-- Mean of a list of rationals (used for the zero-filled per-round mean). -/
def ratMeanQ (l : List ℚ) : ℚ :=
  l.sum / (l.length : ℚ)

/-- Median with linear interpolation for even lengths (Polars/DuckDB
`median`): middle element of the sorted list, or the mean of the two middle
elements; `none` on an empty column (SQL `NULL`). -/
def ratMedian (l : List ℚ) : Option ℚ :=
  if l = [] then none
  else
    let s := List.insertionSort (fun a b : ℚ => a ≤ b) l
    let n := s.length
    if n % 2 = 1 then s.get? (n / 2)
    else do
      let a ← s.get? (n / 2 - 1)
      let b ← s.get? (n / 2)
      pure ((a + b) / 2)

/-- Python `int()` on a rational (truncation toward zero). -/
def pyInt (q : ℚ) : Int :=
  if 0 ≤ q then ⌊q⌋ else ⌈q⌉

/-- Minimum of an integer list (`MIN(col)` / `pl.min`), 0 on empty (never hit:
groups are nonempty). -/
def intMin : List Int → Int
  | [] => 0
  | a :: as => as.foldl min a

/-- Maximum of an integer list (`MAX(col)` / `pl.max`). -/
def intMax : List Int → Int
  | [] => 0
  | a :: as => as.foldl max a

/-! ### Sort orders keyed through a linearly ordered type -/

/-- The (total, transitive) sort relation induced by a key function — the
deterministic reading of a column sort. -/
def ordByKey {α κ : Type} [LinearOrder κ] (f : α → κ) : α → α → Prop :=
  fun a b => f a ≤ f b

instance {α κ : Type} [LinearOrder κ] (f : α → κ) : DecidableRel (ordByKey f) :=
  fun a b => inferInstanceAs (Decidable (f a ≤ f b))

instance {α κ : Type} [LinearOrder κ] (f : α → κ) : IsTotal α (ordByKey f) :=
  ⟨fun a b => le_total (f a) (f b)⟩

instance {α κ : Type} [LinearOrder κ] (f : α → κ) : IsTrans α (ordByKey f) :=
  ⟨fun _ _ _ hab hbc => le_trans hab hbc⟩

/-- Descending variant (`descending=True` / `ORDER BY … DESC`). -/
def ordByKeyDesc {α κ : Type} [LinearOrder κ] (f : α → κ) : α → α → Prop :=
  fun a b => f b ≤ f a

instance {α κ : Type} [LinearOrder κ] (f : α → κ) :
    DecidableRel (ordByKeyDesc f) :=
  fun a b => inferInstanceAs (Decidable (f b ≤ f a))

instance {α κ : Type} [LinearOrder κ] (f : α → κ) : IsTotal α (ordByKeyDesc f) :=
  ⟨fun a b => le_total (f b) (f a)⟩

instance {α κ : Type} [LinearOrder κ] (f : α → κ) : IsTrans α (ordByKeyDesc f) :=
  ⟨fun _ _ _ hab hbc => le_trans hbc hab⟩

/-! ### Data model

One row of the draft table (`updated_bestball_data.parquet` after the
loader's type fixes): the Polars column names are `draft`, `round`,
`team_id`, `draft_position`, `pick`, `player`, `Position`, `Team`. -/

structure Pick where
  draft : Int
  round : Int
  team_id : Int
  draft_position : Int
  pick : Int
  player : String
  Position : String
  Team : String
deriving Repr, DecidableEq


/-! ### Combination engine — `find_unique_player_combinations`
(src/player_combinations.py; src/src/player_combinations.py is the same
pipeline with an always-applied round filter) -/

/-- One aggregated team row (`group_by("team_id").agg([...])` output plus the
`player_combo` column added later; the final `select` keeps the fields, the
signature column merely stops being displayed). -/
structure TeamCombo where
  team_id : Int
  players : List String
  players_sorted : List String
  draft : Int
  draft_position : Int
  player_combo : String
deriving Repr, DecidableEq

/-- Key of `sort(["team_id", "round", "draft_position"])`. -/
def pickSortKey (r : Pick) : Int ×ₗ (Int ×ₗ Int) :=
  toLex (r.team_id, toLex (r.round, r.draft_position))

/-- Key of `sort("draft", "draft_position")`. -/
def comboSortKey (g : TeamCombo) : Int ×ₗ Int :=
  toLex (g.draft, g.draft_position)

/-- Binary ascending order on strings (Polars default string sort). -/
def strLE (a b : String) : Prop :=
  charsLE a.data b.data = true

instance : DecidableRel strLE :=
  fun a b => inferInstanceAs (Decidable (charsLE a.data b.data = true))

/-- The round window: keep `round <= n_rounds` unless `n_rounds` is `None`,
then sort by (team_id, round, draft_position). -/
def rounds_subset (df : List Pick) (n_rounds : Option Int) : List Pick :=
  match n_rounds with
  | none => List.insertionSort (ordByKey pickSortKey) df
  | some n =>
    List.insertionSort (ordByKey pickSortKey) (df.filter (fun r => r.round ≤ n))

/-- Embeds `group_by("team_id").agg(...)`: pick-order players, sorted players, first
draft and first draft_position of each group. -/
def teamAgg (subset : List Pick) : List TeamCombo :=
  (groupByKey (fun r => r.team_id) subset).map (fun g =>
    { team_id := g.1
      players := g.2.map (fun r => r.player)
      players_sorted := List.insertionSort strLE (g.2.map (fun r => r.player))
      draft := ((g.2.head?).map (fun r => r.draft)).getD 0
      draft_position := ((g.2.head?).map (fun r => r.draft_position)).getD 0
      player_combo := "" })

/-- The `required_players` loop: one `.filter(players.list.contains(p))` per
required player. (The Python `if required_players:` truthiness guard is the
identity for `[]`, exactly as the fold over an empty list is.) -/
def requiredFilter (req : List String) (l : List TeamCombo) : List TeamCombo :=
  req.foldl (fun acc p => acc.filter (fun g => p ∈ g.players)) l

/-- Aggregated, filtered team rows with the canonical signature column
(`"|".join(players_sorted)`) attached. -/
def signedTeamCombos (df : List Pick) (n_rounds : Option Int)
    (required_players : Option (List String)) : List TeamCombo :=
  let team_combinations := teamAgg (rounds_subset df n_rounds)
  let team_combinations :=
    match required_players with
    | none => team_combinations
    | some req => requiredFilter req team_combinations
  team_combinations.map (fun g =>
    { g with player_combo := String.intercalate "|" g.players_sorted })

/-- Embeds `find_unique_player_combinations`: ascending sort on
(draft, draft_position) followed by `unique(subset="player_combo",
keep="last")`. -/
def find_unique_player_combinations (df : List Pick) (n_rounds : Option Int)
    (required_players : Option (List String)) : List TeamCombo :=
  uniqueKeepLast (fun g => g.player_combo)
    (List.insertionSort (ordByKey comboSortKey)
      (signedTeamCombos df n_rounds required_players))

/-! ### `DataService.get_player_combinations`
(src/backend/app/services/data_service.py) -/

/-- One dictionary of the service result list. -/
structure CombRow where
  team_id : Int
  players : List String
  positions : List String
  draft_id : Int
  draft_position : Int
  position_counts : Option String
deriving Repr, DecidableEq

/-- Key of the service's pre-grouping `sort("team_id", "round")`. -/
def pickTeamRoundKey (r : Pick) : Int ×ₗ Int :=
  toLex (r.team_id, r.round)

/-- Key of the service's final `sort(["draft_id", "draft_position"])`. -/
def combRowKey (t : CombRow) : Int ×ₗ Int :=
  toLex (t.draft_id, t.draft_position)

namespace DataService

/-- Embeds `DataService.get_player_combinations`: guard clause returning `[]` for an
empty or absent `required_players`, then the two-step team filter, grouping,
ordering, truncation and position-count formatting. -/
def get_player_combinations (df : List Pick)
    (required_players : Option (List String)) (n_rounds : Int) (limit : Nat) :
    List CombRow :=
  if required_players.getD [] = [] then []
  else
    let required := required_players.getD []
    let required_set := firstKeys required
    let relevant_team_ids :=
      ((groupByKey (fun r => r.team_id)
          (df.filter (fun r => r.player ∈ required))).filter
        (fun g =>
          (firstKeys (g.2.map (fun r => r.player))).length
            = required_set.length)).map (fun g => g.1)
    if relevant_team_ids = [] then []
    else
      let result0 :=
        (groupByKey (fun r => r.team_id)
          (List.insertionSort (ordByKey pickTeamRoundKey)
            (df.filter (fun r =>
              r.team_id ∈ relevant_team_ids ∧ r.round ≤ n_rounds)))).map
          (fun g =>
            ({ team_id := g.1
               players := g.2.map (fun r => r.player)
               positions := g.2.map (fun r => r.Position)
               draft_id := ((g.2.head?).map (fun r => r.draft)).getD 0
               draft_position :=
                 ((g.2.head?).map (fun r => r.draft_position)).getD 0
               position_counts := none } : CombRow))
      let result1 := (List.insertionSort (ordByKey combRowKey) result0).take limit
      if result1 = [] then []
      else
        let pos_cols :=
          List.insertionSort strLE (firstKeys (result1.flatMap (fun t => t.positions)))
        result1.map (fun t =>
          { t with
            position_counts := some (String.intercalate ", "
              (pos_cols.map (fun c =>
                c ++ ": " ++ toString (t.positions.count c)))) })

end DataService

/-! ### Combination-engine lemmas -/

theorem requiredFilter_mem (req : List String) (l : List TeamCombo)
    (g : TeamCombo) :
    g ∈ requiredFilter req l ↔ g ∈ l ∧ ∀ p ∈ req, p ∈ g.players := by
  induction req generalizing l with
  | nil => simp [requiredFilter]
  | cons p ps ih =>
    show g ∈ requiredFilter ps (l.filter (fun g => p ∈ g.players)) ↔ _
    rw [ih]
    simp only [List.mem_filter, decide_eq_true_eq, List.mem_cons]
    constructor
    · rintro ⟨⟨hl, hp⟩, hall⟩
      exact ⟨hl, fun q hq => by rcases hq with rfl | hq; exact hp; exact hall q hq⟩
    · rintro ⟨hl, hall⟩
      exact ⟨⟨hl, hall p (Or.inl rfl)⟩, fun q hq => hall q (Or.inr hq)⟩

theorem teamAgg_players (subset : List Pick) (g : TeamCombo)
    (hg : g ∈ teamAgg subset) (x : String) (hx : x ∈ g.players) :
    ∃ r ∈ subset, r.player = x := by
  rcases List.mem_map.1 hg with ⟨grp, hgrp, rfl⟩
  rcases List.mem_map.1 hx with ⟨r, hr, rfl⟩
  exact ⟨r, groupByKey_rows_sub _ _ _ hgrp r hr, rfl⟩

theorem rounds_subset_mem (df : List Pick) (n : Option Int) (r : Pick)
    (hr : r ∈ rounds_subset df n) : r ∈ df := by
  cases n with
  | none => exact (List.mem_insertionSort _).1 hr
  | some k =>
    exact (List.mem_filter.1 ((List.mem_insertionSort _).1 hr)).1

theorem signedTeamCombos_superset (df : List Pick) (n : Option Int)
    (req : List String) (b : TeamCombo)
    (hb : b ∈ signedTeamCombos df n (some req)) (p : String) (hp : p ∈ req) :
    p ∈ b.players := by
  rcases List.mem_map.1 hb with ⟨g, hg, rfl⟩
  exact (requiredFilter_mem req _ g).1 hg |>.2 p hp

theorem signedTeamCombos_players_from_df (df : List Pick) (n : Option Int)
    (req : Option (List String)) (b : TeamCombo)
    (hb : b ∈ signedTeamCombos df n req) (x : String) (hx : x ∈ b.players) :
    ∃ r ∈ df, r.player = x := by
  rcases List.mem_map.1 hb with ⟨g, hg, rfl⟩
  have hg' : g ∈ teamAgg (rounds_subset df n) := by
    cases req with
    | none => exact hg
    | some l => exact ((requiredFilter_mem l _ g).1 hg).1
  rcases teamAgg_players _ g hg' x hx with ⟨r, hr, hpl⟩
  exact ⟨r, rounds_subset_mem df n r hr, hpl⟩

/-! ### Sample dataset (the fixture of tests/test_player_combinations.py,
extended with pick / Position / Team columns) -/

def sampleDf : List Pick :=
  [ ⟨1, 1, 101, 1, 1, "PlayerA", "RB", "NE"⟩,
    ⟨1, 2, 101, 1, 13, "PlayerB", "WR", "DAL"⟩,
    ⟨1, 1, 102, 2, 2, "PlayerA", "RB", "NE"⟩,
    ⟨1, 2, 102, 2, 14, "PlayerC", "WR", "GB"⟩,
    ⟨2, 1, 201, 1, 1, "PlayerD", "QB", "KC"⟩,
    ⟨2, 2, 201, 1, 13, "PlayerE", "TE", "KC"⟩,
    ⟨2, 1, 202, 2, 2, "PlayerD", "QB", "KC"⟩,
    ⟨2, 2, 202, 2, 14, "PlayerF", "WR", "SF"⟩ ]

/-! ### Claims C1 – C5 -/

/-- C1: for every dataset and round window, `find_unique_player_combinations`
returns at most one row per canonical signature (the `player_combo` column of
the result has no duplicates), and the representative kept for a signature is
a latest one in ascending (draft, draft_position) order among all aggregated
team rows sharing that signature. -/
theorem find_unique_signature_dedup (df : List Pick) (n : Option Int)
    (req : Option (List String)) :
    ((find_unique_player_combinations df n req).map
        (fun g => g.player_combo)).Nodup
    ∧ ∀ b ∈ find_unique_player_combinations df n req,
        ∀ g ∈ signedTeamCombos df n req,
          g.player_combo = b.player_combo →
            (g.draft < b.draft
              ∨ (g.draft = b.draft ∧ g.draft_position ≤ b.draft_position)) := by
  constructor
  · exact uniqueKeepLast_key_nodup _ _
  · intro b hb g hg hcombo
    have hsorted :
        (List.insertionSort (ordByKey comboSortKey)
          (signedTeamCombos df n req)).Sorted (ordByKey comboSortKey) :=
      List.sorted_insertionSort _ _
    have hmem : g ∈ List.insertionSort (ordByKey comboSortKey)
        (signedTeamCombos df n req) := (List.mem_insertionSort _).2 hg
    have hb' : b ∈ uniqueKeepLast (fun g : TeamCombo => g.player_combo)
        (List.insertionSort (ordByKey comboSortKey)
          (signedTeamCombos df n req)) := hb
    have h := uniqueKeepLast_keeps_last (fun g : TeamCombo => g.player_combo)
      (ordByKey comboSortKey) _ hsorted b hb' g hmem hcombo
    exact (Prod.Lex.le_iff (g.draft, g.draft_position)
      (b.draft, b.draft_position)).1 h

/-- C1 witness: on the test fixture with `n_rounds=1`,
`required_players=["PlayerA"]`, the result signatures are duplicate-free and
the kept representative (team 102 at draft 1 slot 2) is no earlier than team
101's tied row (draft 1 slot 1). -/
theorem find_unique_signature_dedup_witness :
    ((find_unique_player_combinations sampleDf (some 1)
        (some ["PlayerA"])).map (fun g => g.player_combo)).Nodup
    ∧ ((1 : Int) < 1 ∨ ((1 : Int) = 1 ∧ (1 : Int) ≤ 2)) :=
  ⟨(find_unique_signature_dedup sampleDf (some 1) (some ["PlayerA"])).1,
    (find_unique_signature_dedup sampleDf (some 1) (some ["PlayerA"])).2
      ⟨102, ["PlayerA"], ["PlayerA"], 1, 2, "PlayerA"⟩ (by decide)
      ⟨101, ["PlayerA"], ["PlayerA"], 1, 1, "PlayerA"⟩ (by decide) (by decide)⟩

/-- C2: every returned roster contains all required players, and a required
player that appears nowhere in the dataset forces an empty result. -/
theorem find_unique_required_superset (df : List Pick) (n : Option Int)
    (req : List String) :
    (∀ b ∈ find_unique_player_combinations df n (some req),
        ∀ p ∈ req, p ∈ b.players)
    ∧ (∀ p ∈ req, (∀ r ∈ df, r.player ≠ p) →
        find_unique_player_combinations df n (some req) = []) := by
  constructor
  · intro b hb p hp
    have hbs : b ∈ signedTeamCombos df n (some req) :=
      (List.mem_insertionSort _).1 (uniqueKeepLast_mem _ _ b hb)
    exact signedTeamCombos_superset df n req b hbs p hp
  · intro p hp habsent
    have hempty : signedTeamCombos df n (some req) = [] := by
      apply List.eq_nil_iff_forall_not_mem.2
      intro b hb
      have hpb : p ∈ b.players := signedTeamCombos_superset df n req b hb p hp
      rcases signedTeamCombos_players_from_df df n (some req) b hb p hpb with
        ⟨r, hr, hpl⟩
      exact habsent r hr hpl
    unfold find_unique_player_combinations
    rw [hempty]
    rfl

/-- C2 witness: on the fixture, requiring the absent name `"PlayerZ"` returns
the empty result. -/
theorem find_unique_required_superset_witness :
    find_unique_player_combinations sampleDf (some 2) (some ["PlayerZ"]) = [] :=
  (find_unique_required_superset sampleDf (some 2) ["PlayerZ"]).2
    "PlayerZ" (by decide) (by decide)

/-- C3: the result sequence is ordered ascending by (draft, draft_position):
the ascending sort precedes a deduplication that keeps a subsequence. -/
theorem find_unique_sorted_output (df : List Pick) (n : Option Int)
    (req : Option (List String)) :
    (find_unique_player_combinations df n req).Pairwise
      (fun a b => a.draft < b.draft
        ∨ (a.draft = b.draft ∧ a.draft_position ≤ b.draft_position)) := by
  have hsorted :
      (List.insertionSort (ordByKey comboSortKey)
        (signedTeamCombos df n req)).Pairwise (ordByKey comboSortKey) :=
    List.sorted_insertionSort _ _
  have hsub := uniqueKeepLast_sublist (fun g => g.player_combo)
    (List.insertionSort (ordByKey comboSortKey) (signedTeamCombos df n req))
  exact (List.Pairwise.sublist hsub hsorted).imp
    (fun h => (Prod.Lex.le_iff _ _).1 h)

/-- C4: the engine is a pure function of its inputs — identical inputs give
identical outputs, order included. (The embedding is deterministic by
construction: the pipeline has no hidden state.) -/
theorem find_unique_deterministic (df₁ df₂ : List Pick) (n₁ n₂ : Option Int)
    (r₁ r₂ : Option (List String)) (hdf : df₁ = df₂) (hn : n₁ = n₂)
    (hr : r₁ = r₂) :
    find_unique_player_combinations df₁ n₁ r₁
      = find_unique_player_combinations df₂ n₂ r₂ := by
  rw [hdf, hn, hr]

/-- C4 witness: two identical calls on the fixture agree. -/
theorem find_unique_deterministic_witness :
    find_unique_player_combinations sampleDf (some 2) (some ["PlayerA"])
      = find_unique_player_combinations sampleDf (some 2) (some ["PlayerA"]) :=
  find_unique_deterministic sampleDf sampleDf (some 2) (some 2)
    (some ["PlayerA"]) (some ["PlayerA"]) rfl rfl rfl

/-- C5 counterexample: on the (non-empty) fixture the service-layer
`DataService.get_player_combinations` returns the empty list when
`required_players` is absent or empty, while the standalone engine returns a
non-empty result (one representative per distinct signature). -/
theorem service_empty_required_returns_empty :
    DataService.get_player_combinations sampleDf none 2 100 = []
    ∧ DataService.get_player_combinations sampleDf (some []) 2 100 = []
    ∧ find_unique_player_combinations sampleDf (some 2) none ≠ [] := by
  refine ⟨rfl, rfl, ?_⟩
  decide

/-- C5 amended: the standalone `find_unique_player_combinations` applies no
required-player filter when `required_players` is empty or absent — the empty
and absent cases coincide, and the result carries exactly the distinct
signatures of all aggregated team rows in the round window; the service-layer
`DataService.get_player_combinations`, by contrast, answers the empty list
whenever `required_players` is empty or absent. -/
theorem find_unique_empty_required_no_filter (df : List Pick) (n : Option Int)
    (nr : Int) (lim : Nat) :
    find_unique_player_combinations df n none
      = find_unique_player_combinations df n (some [])
    ∧ (∀ s : String,
        s ∈ (find_unique_player_combinations df n none).map
            (fun g => g.player_combo)
          ↔ s ∈ (signedTeamCombos df n none).map (fun g => g.player_combo))
    ∧ DataService.get_player_combinations df none nr lim = []
    ∧ DataService.get_player_combinations df (some []) nr lim = [] := by
  refine ⟨rfl, ?_, rfl, rfl⟩
  intro s
  unfold find_unique_player_combinations
  rw [uniqueKeepLast_key_mem]
  exact ((List.perm_insertionSort (ordByKey comboSortKey)
    (signedTeamCombos df n none)).map (fun g => g.player_combo)).mem_iff

/-! ### Player listing — the Polars and DuckDB backends
(DataService.get_players / AnalyticsService.get_players) -/

inductive SortableColumn
  | name
  | position
  | team
  | draft_percentage
  | avg_pick
  | avg_round
deriving Repr, DecidableEq

inductive SortOrder
  | asc
  | desc
deriving Repr, DecidableEq

/-- One aggregated player row (the `Player` response model; `avg_round` is not
computed by either backend). -/
structure PlayerStats where
  name : String
  position : String
  team : String
  avg_pick : ℚ
  min_pick : Int
  max_pick : Int
  draft_percentage : ℚ
deriving Repr, DecidableEq

/-- The grouping key `(player, Position, Team)`. -/
def playerKey (r : Pick) : String × String × String :=
  (r.player, r.Position, r.Team)

/-- The shared aggregation: group by `(player, Position, Team)` and compute
avg/min/max pick and `count / total_drafts * 100`. -/
def groupStats (total_drafts : Nat) (rows : List Pick) : List PlayerStats :=
  (groupByKey playerKey rows).map (fun g =>
    { name := g.1.1
      position := g.1.2.1
      team := g.1.2.2
      avg_pick := ratMean (g.2.map (fun r => r.pick))
      min_pick := intMin (g.2.map (fun r => r.pick))
      max_pick := intMax (g.2.map (fun r => r.pick))
      draft_percentage := (g.2.length : ℚ) / (total_drafts : ℚ) * 100 })

/-- Sort key values: the three string columns or the two rational columns. -/
def skLE : String ⊕ ℚ → String ⊕ ℚ → Bool
  | Sum.inl a, Sum.inl b => charsLE a.data b.data
  | Sum.inl _, Sum.inr _ => true
  | Sum.inr _, Sum.inl _ => false
  | Sum.inr a, Sum.inr b => decide (a ≤ b)

/-- Sort-key binding of the Polars backend. `DataService.get_players` sorts
the *pre-rename* frame (the `.sort` precedes the `.rename` to
`name`/`position`/`team`), whose columns are `player`, `Position`, `Team`,
`avg_pick`, `min_pick`, `max_pick` and `draft_percentage`; Polars column
lookup is case-sensitive, so the sort keys `name`, `position` and `team`
raise `ColumnNotFoundError`, and `avg_round` is not materialised either —
all four are `none`. Only `draft_percentage` and `avg_pick` bind. The
`PlayerStats` fields carry the post-rename names, but their contents are the
`player`/`Position`/`Team` column values. -/
def polarsSortKey : SortableColumn → Option (PlayerStats → String ⊕ ℚ)
  | .name => none
  | .position => none
  | .team => none
  | .draft_percentage => some (fun g => Sum.inr g.draft_percentage)
  | .avg_pick => some (fun g => Sum.inr g.avg_pick)
  | .avg_round => none

/-- Sort-key binding of the DuckDB backend. DuckDB resolves identifiers
case-insensitively, so `ORDER BY position` and `ORDER BY team` bind the
`Position` and `Team` columns of the aggregation and succeed, while
`ORDER BY name` and `ORDER BY avg_round` match no column in any case and
fail with a binder error. -/
def duckSortKey : SortableColumn → Option (PlayerStats → String ⊕ ℚ)
  | .name => none
  | .position => some (fun g => Sum.inl g.position)
  | .team => some (fun g => Sum.inl g.team)
  | .draft_percentage => some (fun g => Sum.inr g.draft_percentage)
  | .avg_pick => some (fun g => Sum.inr g.avg_pick)
  | .avg_round => none

/-- Ascending or descending sort relation over the chosen column. -/
def playersSortRel (f : PlayerStats → String ⊕ ℚ) (ord : SortOrder) :
    PlayerStats → PlayerStats → Prop :=
  fun a b =>
    (match ord with
     | .asc => skLE (f a) (f b)
     | .desc => skLE (f b) (f a)) = true

instance (f : PlayerStats → String ⊕ ℚ) (ord : SortOrder) :
    DecidableRel (playersSortRel f ord) :=
  fun _ _ => inferInstanceAs (Decidable (_ = true))

/-- Polars search normalisation: lowercase both sides, strip periods from the
search term, strip periods and apostrophes from the player name, then
substring containment (`str.contains`; the pattern is regex-interpreted by
Polars, which coincides with substring search for metacharacter-free
terms). -/
def polarsNameMatch (term name : String) : Bool :=
  hasSubstr ((lowerStr term.data).filter (fun c => c ≠ '.'))
    ((lowerStr name.data).filter (fun c => ¬(c = '.' ∨ c = '\'')))

/-- DuckDB search: `lower(player) LIKE '%term.lower()%'` (the quote doubling
in the source only escapes the SQL literal). -/
def duckNameMatch (term name : String) : Bool :=
  likeMatch ('%' :: (lowerStr term.data ++ ['%'])) (lowerStr name.data)

/-- The loader's pick-sign normalisation (`DataService._initialize_data`):
negative pick values are corrected by adding 256 (unsigned-byte wraparound
in the upstream export); the subsequent `UInt8` cast is the identity on the
resulting 0–255 data range. -/
def pickFix (r : Pick) : Pick :=
  { r with pick := if r.pick < 0 then r.pick + 256 else r.pick }

/-- The normalised table `DataService` serves (`self._df`). The DuckDB
`picks` view, by contrast, is a `parquet_scan` of the raw file and never
applies this fix. -/
def loadNormalized (raw : List Pick) : List Pick :=
  raw.map pickFix

namespace DataService

/-- Embeds `DataService.get_players` (over the loader-normalised frame):
aggregate first, then group-level position and search filters, count before
pagination, sort, slice. The sort runs on the pre-rename frame, so only the
keys `polarsSortKey` binds succeed; the others raise
(`ColumnNotFoundError`), embedded as `none`. -/
def get_players (df : List Pick) (positions : Option (List String))
    (search_term : Option String) (limit offset : Nat)
    (sort_by : SortableColumn) (sort_order : SortOrder) :
    Option (List PlayerStats × Nat) :=
  let total_drafts := (firstKeys (df.map (fun r => r.draft))).length
  let q0 := groupStats total_drafts df
  let q1 :=
    match positions with
    | none => q0
    | some ps => if ps = [] then q0 else q0.filter (fun g => g.position ∈ ps)
  let q2 :=
    match search_term with
    | none => q1
    | some t =>
      if t = "" then q1 else q1.filter (fun g => polarsNameMatch t g.name)
  let total_count := q2.length
  match polarsSortKey sort_by with
  | none => none
  | some f =>
    some (((List.insertionSort (playersSortRel f sort_order) q2).drop
      offset).take limit, total_count)

end DataService

namespace AnalyticsService

/-- Embeds `AnalyticsService.get_players`: the DuckDB SQL over the raw
`picks` view — row-level `WHERE` filters (one conjunction of position
membership and `LIKE` search), then the same aggregation, count before
pagination, `ORDER BY` (case-insensitive binding, `duckSortKey`; a binder
error is `none`), `LIMIT/OFFSET`. The latency-based fallback to the Polars
backend selects between this function and `DataService.get_players`. -/
def get_players (df : List Pick) (positions : Option (List String))
    (search_term : Option String) (limit offset : Nat)
    (sort_by : SortableColumn) (sort_order : SortOrder) :
    Option (List PlayerStats × Nat) :=
  let total_drafts := (firstKeys (df.map (fun r => r.draft))).length
  let rows1 :=
    match positions with
    | none => df
    | some ps => if ps = [] then df else df.filter (fun r => r.Position ∈ ps)
  let rows2 :=
    match search_term with
    | none => rows1
    | some t =>
      if t = "" then rows1 else rows1.filter (fun r => duckNameMatch t r.player)
  let base := groupStats total_drafts rows2
  let total_count := base.length
  match duckSortKey sort_by with
  | none => none
  | some f =>
    some (((List.insertionSort (playersSortRel f sort_order) base).drop
      offset).take limit, total_count)

end AnalyticsService

/-! ### Claim C9 -/

theorem groupStats_filter_position (td : Nat) (df : List Pick)
    (ps : List String) :
    groupStats td (df.filter (fun r => r.Position ∈ ps))
      = (groupStats td df).filter (fun g => g.position ∈ ps) := by
  unfold groupStats
  have h := groupByKey_filter playerKey
    (fun k => decide (k.2.1 ∈ ps)) df
  rw [show (df.filter (fun r => r.Position ∈ ps))
      = df.filter (fun a => decide ((playerKey a).2.1 ∈ ps)) from rfl, h]
  rw [filter_map_comm]

/-- Sample dataset for the backend-divergence counterexample: one player
whose name contains periods (pick column nonnegative). -/
def ajDf : List Pick :=
  [ ⟨1, 1, 1, 1, 5, "A.J. Brown", "WR", "PHI"⟩ ]

/-- Raw dataset whose pick column holds a negative (wrapped) export value. -/
def negPickDf : List Pick :=
  [ ⟨1, 1, 1, 1, -10, "Neg Player", "RB", "NYJ"⟩ ]

/-- C9 counterexample: three concrete divergences between the two backends
over the same parquet data (the Polars side serving the loader-normalised
table, the DuckDB side the raw `picks` view).
1. Searching `"aj"` (sort by `avg_pick` ascending): the Polars backend
   normalises `"A.J. Brown"` to `"aj brown"` and returns the player with
   total count 1, while the DuckDB backend's plain `LIKE` finds nothing and
   returns total count 0.
2. Sort key `position`, no search term: the Polars backend sorts the
   pre-rename frame and raises `ColumnNotFoundError` (`none`), while DuckDB
   binds the `Position` column case-insensitively and returns the row.
3. A raw pick of `-10`: the loader's +256 wraparound fix yields
   `min_pick = 246` on the Polars side, while the raw view yields `-10` on
   the DuckDB side. -/
theorem get_players_backends_diverge :
    ((AnalyticsService.get_players ajDf none (some "aj") 100 0
        SortableColumn.avg_pick SortOrder.asc).map
        (fun r => (r.1.map (fun p => p.name), r.2))
      ≠ (DataService.get_players (loadNormalized ajDf) none (some "aj") 100 0
        SortableColumn.avg_pick SortOrder.asc).map
        (fun r => (r.1.map (fun p => p.name), r.2)))
    ∧ (DataService.get_players (loadNormalized ajDf) none none 100 0
        SortableColumn.position SortOrder.asc = none
      ∧ (AnalyticsService.get_players ajDf none none 100 0
          SortableColumn.position SortOrder.asc).map
          (fun r => (r.1.map (fun p => p.name), r.2))
        = some (["A.J. Brown"], 1))
    ∧ ((AnalyticsService.get_players negPickDf none none 100 0
        SortableColumn.avg_pick SortOrder.asc).map
        (fun r => r.1.map (fun p => p.min_pick))
      ≠ (DataService.get_players (loadNormalized negPickDf) none none 100 0
        SortableColumn.avg_pick SortOrder.asc).map
        (fun r => r.1.map (fun p => p.min_pick))) := by
  refine ⟨by decide, ⟨by decide, by decide⟩, by decide⟩

theorem loadNormalized_eq_self (raw : List Pick)
    (h : ∀ r ∈ raw, 0 ≤ r.pick) : loadNormalized raw = raw := by
  have hfix : ∀ r ∈ raw, pickFix r = r := by
    intro r hr
    show { r with pick := if r.pick < 0 then r.pick + 256 else r.pick } = r
    rw [if_neg (not_lt.2 (h r hr))]
  calc raw.map pickFix = raw.map id := List.map_congr_left hfix
    _ = raw := List.map_id raw

theorem get_players_agree_core (df : List Pick)
    (positions : Option (List String)) (limit offset : Nat)
    (sort_by : SortableColumn) (sort_order : SortOrder)
    (hpd : duckSortKey sort_by = polarsSortKey sort_by) :
    AnalyticsService.get_players df positions none limit offset
        sort_by sort_order
      = DataService.get_players df positions none limit offset
        sort_by sort_order := by
  unfold AnalyticsService.get_players DataService.get_players
  rw [hpd]
  cases positions with
  | none => rfl
  | some ps =>
    by_cases h : ps = []
    · subst h
      rfl
    · simp only [if_neg h]
      rw [groupStats_filter_position]

/-- C9 amended: comparing the two backends over the same parquet data (the
Polars backend serving the loader-normalised table, the DuckDB backend the
raw `picks` view), they return identical results — identical failures for
the `name` and `avg_round` sort keys included — for every positions filter,
limit, offset and sort order, whenever (i) no search term is supplied,
(ii) the sort key is neither `position` nor `team`, and (iii) the raw pick
column is nonnegative. Outside that domain the backends genuinely diverge:
`position`/`team` sorts raise only on the Polars side (its sort precedes the
rename, while DuckDB binds the columns case-insensitively), a search term is
punctuation-normalised only on the Polars side, and negative raw picks
receive the +256 wraparound fix only on the Polars side. -/
theorem get_players_backends_agree_without_search (raw : List Pick)
    (positions : Option (List String)) (limit offset : Nat)
    (sort_by : SortableColumn) (sort_order : SortOrder)
    (hpick : ∀ r ∈ raw, 0 ≤ r.pick)
    (hp : sort_by ≠ SortableColumn.position)
    (ht : sort_by ≠ SortableColumn.team) :
    AnalyticsService.get_players raw positions none limit offset
        sort_by sort_order
      = DataService.get_players (loadNormalized raw) positions none limit
        offset sort_by sort_order := by
  rw [loadNormalized_eq_self raw hpick]
  apply get_players_agree_core
  cases sort_by with
  | name => rfl
  | position => exact absurd rfl hp
  | team => exact absurd rfl ht
  | draft_percentage => rfl
  | avg_pick => rfl
  | avg_round => rfl

/-- C9 amended witness: a concrete agreement instance — nonnegative picks,
no search term, sort by `avg_pick`. -/
theorem get_players_backends_agree_witness :
    AnalyticsService.get_players ajDf none none 100 0
        SortableColumn.avg_pick SortOrder.asc
      = DataService.get_players (loadNormalized ajDf) none none 100 0
        SortableColumn.avg_pick SortOrder.asc :=
  get_players_backends_agree_without_search ajDf none 100 0
    SortableColumn.avg_pick SortOrder.asc (by decide) (by decide) (by decide)

/-! ### Position stats — `DataService.get_position_stats` (C10) -/

theorem groupByKey_key_mem {α β : Type} [DecidableEq β] (key : α → β)
    (l : List α) (g : β × List α) (hg : g ∈ groupByKey key l) :
    g.1 ∈ l.map key := by
  rcases List.mem_map.1 hg with ⟨k, hk, rfl⟩
  exact (firstKeys_mem _ _).1 hk

/-- One row of the position-stats response. -/
structure PositionStats where
  position : String
  total_drafted : Nat
  unique_players : Nat
  median_draft_count : ℚ
deriving Repr, DecidableEq

/-- The hard-coded canonical ordering of `get_position_stats`. -/
def position_order : List String :=
  ["QB", "RB", "WR", "TE"]

/-- The joined (unsorted) statistics rows: per-position totals and distinct
player counts inner-joined with the median per-draft count. -/
def positionStatsList (df : List Pick) : List PositionStats :=
  let players_per_draft :=
    (groupByKey (fun r => (r.draft, r.Position)) df).map
      (fun g => (g.1, g.2.length))
  let median_stats :=
    (groupByKey (fun e => e.1.2) players_per_draft).map
      (fun g => (g.1, (ratMedian (g.2.map (fun e => (e.2 : ℚ)))).getD 0))
  let other_stats :=
    (groupByKey (fun r => r.Position) df).map
      (fun g => (g.1, g.2.length, (firstKeys (g.2.map (fun r => r.player))).length))
  other_stats.filterMap (fun o =>
    (lookupKey median_stats o.1).map (fun m =>
      ({ position := o.1
         total_drafted := o.2.1
         unique_players := o.2.2
         median_draft_count := m } : PositionStats)))

/-- Embeds `DataService.get_position_stats`: build the rows, then the Python
`list.sort(key=lambda p: position_order.index(p.position))` — `list.index`
raises `ValueError` for any position outside the four-element
`position_order`, which the embedding renders as `none`. -/
def get_position_stats (df : List Pick) : Option (List PositionStats) :=
  if (positionStatsList df).all (fun s => s.position ∈ position_order) then
    some (List.insertionSort
      (ordByKey (fun s : PositionStats => position_order.indexOf s.position))
      (positionStatsList df))
  else none

theorem positionStatsList_position_mem (df : List Pick) (s : PositionStats)
    (hs : s ∈ positionStatsList df) :
    s.position ∈ df.map (fun r => r.Position) := by
  rcases List.mem_filterMap.1 hs with ⟨o, ho, heq⟩
  rcases Option.map_eq_some'.1 heq with ⟨m, -, rfl⟩
  rcases List.mem_map.1 ho with ⟨g, hg, rfl⟩
  exact groupByKey_key_mem (fun r => r.Position) df g hg

/-- C10 counterexample: a dataset containing a kicker pick makes
`get_position_stats` raise `ValueError` (embedded as `none`) instead of
appending `K` at the end. -/
theorem get_position_stats_kicker_raises :
    get_position_stats [⟨1, 1, 1, 1, 1, "Some Kicker", "K", "CHI"⟩] = none := by
  decide

/-- C10 amended: whenever every pick's position lies in QB/RB/WR/TE,
`get_position_stats` succeeds and returns the per-position statistics ordered
by the canonical QB, RB, WR, TE order; a dataset containing K or DST makes
the final sort key (`position_order.index`) raise `ValueError` instead of
appending those positions. -/
theorem get_position_stats_ordered (df : List Pick)
    (h : ∀ r ∈ df, r.Position ∈ position_order) :
    ∃ l, get_position_stats df = some l
      ∧ l.Pairwise (fun a b =>
          position_order.indexOf a.position
            ≤ position_order.indexOf b.position) := by
  have hall : (positionStatsList df).all
      (fun s => s.position ∈ position_order) = true := by
    rw [List.all_eq_true]
    intro s hs
    rcases List.mem_map.1 (positionStatsList_position_mem df s hs) with
      ⟨r, hr, hpos⟩
    simpa [hpos] using h r hr
  refine ⟨_, by rw [get_position_stats, if_pos hall], ?_⟩
  exact List.sorted_insertionSort
    (ordByKey (fun s : PositionStats => position_order.indexOf s.position)) _

/-- C10 amended witness: on the fixture dataset (positions QB/RB/WR/TE only)
the call succeeds with canonically ordered output. -/
theorem get_position_stats_ordered_witness :
    ∃ l, get_position_stats sampleDf = some l
      ∧ l.Pairwise (fun a b =>
          position_order.indexOf a.position
            ≤ position_order.indexOf b.position) :=
  get_position_stats_ordered sampleDf (by decide)

/-! ### Draft-slot correlation — `compute_correlation`
(src/scripts/draft_slot_correlation.py, C6) -/

/-- One output row of `compute_correlation`. -/
structure CorrRow where
  player : String
  slot : Nat
  overall : Nat
  p_slot : ℚ
  p_overall : ℚ
  score : ℚ
deriving Repr, DecidableEq

/-- Embeds `compute_correlation(df, slot, metric, min_teams, top_n)`: deduplicate
(draft, team_id, draft_position, player) rows, count teams per player overall
and within the slot, inner-join, apply the `min_teams` threshold, attach the
share columns, then score by the metric — `count` and `percent` by equality
tests, **anything else** falls into the `else` branch and is scored as
`ratio`; sort descending by score and truncate to `top_n`. -/
def compute_correlation (df : List Pick) (slot : Int) (metric : String)
    (min_teams : Int) (top_n : Nat) : List CorrRow :=
  let unique_df :=
    firstKeys (df.map (fun r => (r.draft, r.team_id, r.draft_position, r.player)))
  let overall :=
    (groupByKey (fun u => u.2.2.2) unique_df).map (fun g => (g.1, g.2.length))
  let slot_df :=
    (groupByKey (fun u => u.2.2.2)
      (unique_df.filter (fun u => u.2.2.1 = slot))).map
      (fun g => (g.1, g.2.length))
  let total_overall := unique_df.length
  let total_slot := (unique_df.filter (fun u => u.2.2.1 = slot)).length
  let merged :=
    overall.filterMap (fun o =>
      (lookupKey slot_df o.1).map (fun s => (o.1, o.2, s)))
  let merged := merged.filter (fun m => min_teams ≤ (m.2.2 : Int))
  let rows := merged.map (fun m =>
    ({ player := m.1
       slot := m.2.2
       overall := m.2.1
       p_slot := (m.2.2 : ℚ) / (total_slot : ℚ)
       p_overall := (m.2.1 : ℚ) / (total_overall : ℚ)
       score := 0 } : CorrRow))
  let scored :=
    if metric = "count" then rows.map (fun r => { r with score := (r.slot : ℚ) })
    else if metric = "percent" then rows.map (fun r => { r with score := r.p_slot })
    else rows.map (fun r => { r with score := r.p_slot / r.p_overall })
  (List.insertionSort (ordByKeyDesc (fun r : CorrRow => r.score)) scored).take
    top_n

/-- C6 counterexample: with the unrecognized metric `"bogus"`,
`compute_correlation` does not fail — it returns a (non-empty) result, scored
by the `ratio` fallback of its `else` branch. -/
theorem compute_correlation_invalid_metric_returns :
    ((compute_correlation [⟨1, 1, 1, 1, 1, "P", "QB", "KC"⟩] 1 "bogus" 1 5).map
        (fun r => r.player)) = ["P"]
    ∧ compute_correlation [⟨1, 1, 1, 1, 1, "P", "QB", "KC"⟩] 1 "bogus" 1 5 ≠ [] := by
  constructor
  · decide
  · decide

/-- C6 amended: `compute_correlation` itself never rejects a metric — every
metric other than `count` and `percent` is scored exactly as `ratio`;
the invalid-input failure lives in its callers (the CLI's `argparse`
`choices`, the HTTP layer's regex validation, and — per the test suite — a
service wrapper that raises `ValueError`). -/
theorem compute_correlation_unrecognized_metric (df : List Pick) (slot : Int)
    (metric : String) (min_teams : Int) (top_n : Nat)
    (h1 : metric ≠ "count") (h2 : metric ≠ "percent") :
    compute_correlation df slot metric min_teams top_n
      = compute_correlation df slot "ratio" min_teams top_n := by
  unfold compute_correlation
  simp only [if_neg h1, if_neg h2,
    if_neg (by decide : ¬("ratio" : String) = "count"),
    if_neg (by decide : ¬("ratio" : String) = "percent")]

/-- C6 amended witness: concrete instance of the fallback equality. -/
theorem compute_correlation_unrecognized_metric_witness :
    compute_correlation [⟨1, 1, 1, 1, 1, "P", "QB", "KC"⟩] 1 "bogus" 1 5
      = compute_correlation [⟨1, 1, 1, 1, 1, "P", "QB", "KC"⟩] 1 "ratio" 1 5 :=
  compute_correlation_unrecognized_metric _ 1 "bogus" 1 5 (by decide) (by decide)

/-! ### ADP drift — `AnalyticsService.get_adp_drift` (C7) -/

/-- One output row of the drift query. -/
structure DriftRow where
  player : String
  position : String
  avg_pick_early : ℚ
  avg_pick_late : ℚ
  drift : ℚ
deriving Repr, DecidableEq

/-- The `(player, Position)` grouping key. -/
def pkKey (r : Pick) : String × String :=
  (r.player, r.Position)

/-- Embeds `SELECT player, Position, AVG(pick) … GROUP BY player, Position` over one
half of the data. -/
def halfAvgs (rows : List Pick) : List ((String × String) × ℚ) :=
  (groupByKey pkKey rows).map
    (fun g => (g.1, ratMean (g.2.map (fun r => r.pick))))

/-- The inner join of the early and late halves with
`drift = avg_pick_late - avg_pick_early` (unsorted). -/
def adpMerged (df : List Pick) (mid : Int) : List DriftRow :=
  let early_df := halfAvgs (df.filter (fun r => r.draft ≤ mid))
  let late_df := halfAvgs (df.filter (fun r => mid < r.draft))
  early_df.filterMap (fun e =>
    (lookupKey late_df e.1).map (fun lv =>
      ({ player := e.1.1
         position := e.1.2
         avg_pick_early := e.2
         avg_pick_late := lv
         drift := lv - e.2 } : DriftRow)))

/-- Embeds `AnalyticsService.get_adp_drift`: truncate the median of the `draft`
column (`int(median(draft))`; `int(None)` raises on an empty table, embedded
as `none`), split into `draft <= mid` and `draft > mid`, average picks per
(player, Position) in each half, inner-join, sort descending by drift. -/
def get_adp_drift (df : List Pick) : Option (List DriftRow) :=
  (ratMedian (df.map (fun r => (r.draft : ℚ)))).map (fun med =>
    List.insertionSort (ordByKeyDesc (fun d : DriftRow => d.drift))
      (adpMerged df (pyInt med)))

/-- Specification-side per-key average pick over a row set. -/
def avgPickFor (rows : List Pick) (p pos : String) : ℚ :=
  ratMean ((rows.filter (fun r => r.player = p ∧ r.Position = pos)).map
    (fun r => r.pick))

theorem ratMedian_isSome (l : List ℚ) (hl : l ≠ []) :
    ∃ m, ratMedian l = some m := by
  unfold ratMedian
  rw [if_neg hl]
  have hlen : (List.insertionSort (fun a b : ℚ => a ≤ b) l).length = l.length :=
    (List.perm_insertionSort _ l).length_eq
  have hpos : 0 < l.length := List.length_pos.2 hl
  by_cases hodd : (List.insertionSort (fun a b : ℚ => a ≤ b) l).length % 2 = 1
  · rw [if_pos hodd]
    have hlt : (List.insertionSort (fun a b : ℚ => a ≤ b) l).length / 2
        < (List.insertionSort (fun a b : ℚ => a ≤ b) l).length := by
      rw [hlen]
      exact Nat.div_lt_self hpos (by norm_num)
    rcases List.get?_eq_get hlt with h
    exact ⟨_, h⟩
  · rw [if_neg hodd]
    have h2 : 2 ≤ (List.insertionSort (fun a b : ℚ => a ≤ b) l).length := by
      rw [hlen]
      rcases Nat.lt_or_ge l.length 2 with h | h
      · exfalso
        apply hodd
        rw [hlen]
        omega
      · exact h
    have hlt2 : (List.insertionSort (fun a b : ℚ => a ≤ b) l).length / 2
        < (List.insertionSort (fun a b : ℚ => a ≤ b) l).length :=
      Nat.div_lt_self (by omega) (by norm_num)
    have hlt1 : (List.insertionSort (fun a b : ℚ => a ≤ b) l).length / 2 - 1
        < (List.insertionSort (fun a b : ℚ => a ≤ b) l).length := by omega
    rcases List.get?_eq_get hlt1 with h1
    rcases List.get?_eq_get hlt2 with h2'
    refine ⟨((List.insertionSort (fun a b : ℚ => a ≤ b) l).get
        ⟨(List.insertionSort (fun a b : ℚ => a ≤ b) l).length / 2 - 1, hlt1⟩
      + (List.insertionSort (fun a b : ℚ => a ≤ b) l).get
        ⟨(List.insertionSort (fun a b : ℚ => a ≤ b) l).length / 2, hlt2⟩) / 2, ?_⟩
    rw [show ((do
        let a ← (List.insertionSort (fun a b : ℚ => a ≤ b) l).get?
          ((List.insertionSort (fun a b : ℚ => a ≤ b) l).length / 2 - 1)
        let b ← (List.insertionSort (fun a b : ℚ => a ≤ b) l).get?
          ((List.insertionSort (fun a b : ℚ => a ≤ b) l).length / 2)
        pure ((a + b) / 2) : Option ℚ))
      = ((List.insertionSort (fun a b : ℚ => a ≤ b) l).get?
          ((List.insertionSort (fun a b : ℚ => a ≤ b) l).length / 2 - 1)).bind
        (fun a => ((List.insertionSort (fun a b : ℚ => a ≤ b) l).get?
          ((List.insertionSort (fun a b : ℚ => a ≤ b) l).length / 2)).bind
          (fun b => some ((a + b) / 2))) from rfl, h1, Option.some_bind, h2',
      Option.some_bind]

theorem halfAvgs_eq_keys_map (rows : List Pick) :
    halfAvgs rows = (firstKeys (rows.map pkKey)).map
      (fun k => (k, ratMean ((rows.filter (fun r => pkKey r = k)).map
        (fun r => r.pick)))) := by
  unfold halfAvgs groupByKey
  rw [List.map_map]
  rfl

theorem lookup_halfAvgs (rows : List Pick) (k : String × String) :
    lookupKey (halfAvgs rows) k
      = if k ∈ rows.map pkKey then
          some (ratMean ((rows.filter (fun r => pkKey r = k)).map
            (fun r => r.pick)))
        else none := by
  rw [halfAvgs_eq_keys_map, lookupKey_keys]
  by_cases h : k ∈ rows.map pkKey
  · rw [if_pos ((firstKeys_mem _ _).2 h), if_pos h]
  · rw [if_neg (fun hk => h ((firstKeys_mem _ _).1 hk)), if_neg h]

theorem avgPickFor_eq (rows : List Pick) (k : String × String) :
    ratMean ((rows.filter (fun r => pkKey r = k)).map (fun r => r.pick))
      = avgPickFor rows k.1 k.2 := by
  unfold avgPickFor
  congr 2
  apply List.filter_congr
  intro r _
  cases k
  simp [pkKey, Prod.ext_iff]

/-- C7: `get_adp_drift` fails only on an empty table; otherwise it truncates
the median of the `draft` column, averages picks per (player, position) in
the `draft <= mid` and `draft > mid` halves, inner-joins the halves on
(player, position), sets `drift = avg_pick_late - avg_pick_early`, and
returns the rows sorted descending by drift. -/
theorem get_adp_drift_spec (df : List Pick) (hdf : df ≠ []) :
    ∃ med res,
      ratMedian (df.map (fun r => (r.draft : ℚ))) = some med
      ∧ get_adp_drift df = some res
      ∧ res.Pairwise (fun a b => b.drift ≤ a.drift)
      ∧ (∀ d ∈ res,
          d.drift = d.avg_pick_late - d.avg_pick_early
          ∧ d.avg_pick_early
              = avgPickFor (df.filter (fun r => r.draft ≤ pyInt med))
                  d.player d.position
          ∧ d.avg_pick_late
              = avgPickFor (df.filter (fun r => pyInt med < r.draft))
                  d.player d.position)
      ∧ (∀ p pos : String,
          (∃ d ∈ res, d.player = p ∧ d.position = pos)
            ↔ ((p, pos) ∈ (df.filter (fun r => r.draft ≤ pyInt med)).map pkKey
              ∧ (p, pos) ∈ (df.filter
                  (fun r => pyInt med < r.draft)).map pkKey)) := by
  obtain ⟨med, hmed⟩ := ratMedian_isSome (df.map (fun r => (r.draft : ℚ)))
    (fun h => hdf (List.map_eq_nil_iff.1 h))
  have hres : get_adp_drift df
      = some (List.insertionSort (ordByKeyDesc (fun d : DriftRow => d.drift))
          (adpMerged df (pyInt med))) := by
    rw [get_adp_drift, hmed]
    rfl
  refine ⟨med, _, hmed, hres, ?_, ?_, ?_⟩
  · exact List.sorted_insertionSort
      (ordByKeyDesc (fun d : DriftRow => d.drift)) _
  · intro d hd
    have hd' : d ∈ adpMerged df (pyInt med) := (List.mem_insertionSort _).1 hd
    rcases List.mem_filterMap.1 hd' with ⟨e, he, heq⟩
    rcases Option.map_eq_some'.1 heq with ⟨lv, hlook, hdval⟩
    rw [halfAvgs_eq_keys_map] at he
    rcases List.mem_map.1 he with ⟨k, -, rfl⟩
    rw [lookup_halfAvgs] at hlook
    by_cases hkL : k ∈ (df.filter (fun r => pyInt med < r.draft)).map pkKey
    · rw [if_pos hkL, Option.some.injEq] at hlook
      subst hdval
      subst hlook
      exact ⟨rfl, avgPickFor_eq _ k, avgPickFor_eq _ k⟩
    · rw [if_neg hkL] at hlook
      exact absurd hlook (by simp)
  · intro p pos
    constructor
    · rintro ⟨d, hd, hp, hpos⟩
      have hd' : d ∈ adpMerged df (pyInt med) := (List.mem_insertionSort _).1 hd
      rcases List.mem_filterMap.1 hd' with ⟨e, he, heq⟩
      rcases Option.map_eq_some'.1 heq with ⟨lv, hlook, hdval⟩
      rw [halfAvgs_eq_keys_map] at he
      rcases List.mem_map.1 he with ⟨k, hk, rfl⟩
      have hkey : k = (p, pos) := by
        subst hdval
        simp only at hp hpos
        cases k
        simp_all
      subst hkey
      rw [lookup_halfAvgs] at hlook
      by_cases hkL : (p, pos)
          ∈ (df.filter (fun r => pyInt med < r.draft)).map pkKey
      · exact ⟨(firstKeys_mem _ _).1 hk, hkL⟩
      · rw [if_neg hkL] at hlook
        exact absurd hlook (by simp)
    · rintro ⟨hpE, hpL⟩
      refine ⟨{ player := p, position := pos
                avg_pick_early := ratMean (((df.filter
                  (fun r => r.draft ≤ pyInt med)).filter
                    (fun r => pkKey r = (p, pos))).map (fun r => r.pick))
                avg_pick_late := ratMean (((df.filter
                  (fun r => pyInt med < r.draft)).filter
                    (fun r => pkKey r = (p, pos))).map (fun r => r.pick))
                drift := ratMean (((df.filter
                  (fun r => pyInt med < r.draft)).filter
                    (fun r => pkKey r = (p, pos))).map (fun r => r.pick))
                  - ratMean (((df.filter
                  (fun r => r.draft ≤ pyInt med)).filter
                    (fun r => pkKey r = (p, pos))).map (fun r => r.pick)) },
        ?_, rfl, rfl⟩
      apply (List.mem_insertionSort _).2
      apply List.mem_filterMap.2
      refine ⟨((p, pos), ratMean (((df.filter
          (fun r => r.draft ≤ pyInt med)).filter
            (fun r => pkKey r = (p, pos))).map (fun r => r.pick))), ?_, ?_⟩
      · rw [halfAvgs_eq_keys_map]
        exact List.mem_map.2 ⟨(p, pos), (firstKeys_mem _ _).2 hpE, rfl⟩
      · rw [lookup_halfAvgs, if_pos hpL]
        rfl

/-- C7 witness: the fixture dataset is non-empty, so the drift pipeline
succeeds with the stated shape. -/
theorem get_adp_drift_spec_witness :
    ∃ med res,
      ratMedian (sampleDf.map (fun r => (r.draft : ℚ))) = some med
      ∧ get_adp_drift sampleDf = some res
      ∧ res.Pairwise (fun a b => b.drift ≤ a.drift)
      ∧ (∀ d ∈ res,
          d.drift = d.avg_pick_late - d.avg_pick_early
          ∧ d.avg_pick_early
              = avgPickFor (sampleDf.filter (fun r => r.draft ≤ pyInt med))
                  d.player d.position
          ∧ d.avg_pick_late
              = avgPickFor (sampleDf.filter (fun r => pyInt med < r.draft))
                  d.player d.position)
      ∧ (∀ p pos : String,
          (∃ d ∈ res, d.player = p ∧ d.position = pos)
            ↔ ((p, pos) ∈ (sampleDf.filter
                  (fun r => r.draft ≤ pyInt med)).map pkKey
              ∧ (p, pos) ∈ (sampleDf.filter
                  (fun r => pyInt med < r.draft)).map pkKey)) :=
  get_adp_drift_spec sampleDf (by decide)

/-! ### Summation toolkit for the zero-filled round means (C8) -/

theorem sum_map_zero {β : Type} (K : List β) :
    (K.map (fun _ => (0 : ℚ))).sum = 0 := by
  induction K with
  | nil => rfl
  | cons a as ih => simp [ih]

theorem sum_map_add {β : Type} (K : List β) (f g : β → ℚ) :
    (K.map (fun k => f k + g k)).sum = (K.map f).sum + (K.map g).sum := by
  induction K with
  | nil => simp
  | cons a as ih =>
    simp only [List.map_cons, List.sum_cons, ih]
    ring

theorem sum_map_ite_zero {β : Type} [DecidableEq β] (K : List β) (x : β)
    (c : ℚ) (hx : x ∉ K) :
    (K.map (fun k => if x = k then c else 0)).sum = 0 := by
  induction K with
  | nil => rfl
  | cons a as ih =>
    simp only [List.map_cons, List.sum_cons]
    rw [if_neg (fun h => hx (by rw [h]; exact List.mem_cons_self a as)),
      ih (fun h => hx (List.mem_cons_of_mem a h))]
    ring

theorem sum_map_indicator {β : Type} [DecidableEq β] (K : List β)
    (hK : K.Nodup) (x : β) (hx : x ∈ K) (c : ℚ) :
    (K.map (fun k => if x = k then c else 0)).sum = c := by
  induction K with
  | nil => cases hx
  | cons a as ih =>
    rcases List.mem_cons.1 hx with rfl | hxs
    · simp only [List.map_cons, List.sum_cons, if_true, eq_self_iff_true]
      rw [sum_map_ite_zero as x c (List.nodup_cons.1 hK).1]
      ring
    · have hax : ¬(x = a) := fun h => (List.nodup_cons.1 hK).1 (h ▸ hxs)
      simp only [List.map_cons, List.sum_cons, if_neg hax]
      rw [ih (List.nodup_cons.1 hK).2 hxs]
      ring

/-- Summing, over a duplicate-free key list covering a data list, the value
sums of the matching rows recovers the total value sum (the grid join loses
no mass). -/
theorem sum_filter_sum {α β : Type} [DecidableEq β] (K : List β) (hK : K.Nodup)
    (key : α → β) (val : α → ℚ) (l : List α)
    (hcov : ∀ a ∈ l, key a ∈ K) :
    (K.map (fun k => ((l.filter (fun a => key a = k)).map val).sum)).sum
      = (l.map val).sum := by
  induction l with
  | nil =>
    simp only [List.filter_nil, List.map_nil, List.sum_nil]
    exact sum_map_zero K
  | cons a l ih =>
    have hstep : ∀ k ∈ K,
        ((List.filter (fun x => key x = k) (a :: l)).map val).sum
          = (if key a = k then val a else 0)
            + ((l.filter (fun x => key x = k)).map val).sum := by
      intro k _
      by_cases h : key a = k
      · rw [List.filter_cons_of_pos (by simpa using h), if_pos h]
        simp
      · rw [List.filter_cons_of_neg (by simpa using h), if_neg h, zero_add]
    rw [List.map_congr_left hstep, sum_map_add,
      sum_map_indicator K hK (key a) (hcov a (List.mem_cons_self a l)) (val a),
      ih (fun x hx => hcov x (List.mem_cons_of_mem a hx))]
    simp

theorem sum_map_one {α : Type} (l : List α) :
    (l.map (fun _ => (1 : ℚ))).sum = (l.length : ℚ) := by
  induction l with
  | nil => simp
  | cons a as ih =>
    simp only [List.map_cons, List.sum_cons, ih, List.length_cons]
    push_cast
    ring

theorem sum_map_mul_right {β : Type} (K : List β) (f : β → ℚ) (c : ℚ) :
    (K.map f).sum * c = (K.map (fun k => f k * c)).sum := by
  induction K with
  | nil => simp
  | cons a as ih =>
    simp only [List.map_cons, List.sum_cons, add_mul, ih]

/-- The groups of a group-by partition the list: group value sums add up to
the total. -/
theorem sum_groupByKey_vals {α β : Type} [DecidableEq β] (key : α → β)
    (val : α → ℚ) (l : List α) :
    ((groupByKey key l).map (fun g => (g.2.map val).sum)).sum
      = (l.map val).sum := by
  unfold groupByKey
  rw [List.map_map]
  exact sum_filter_sum (firstKeys (l.map key)) (firstKeys_nodup _) key val l
    (fun a ha => (firstKeys_mem _ _).2 (List.mem_map.2 ⟨a, ha, rfl⟩))

theorem product_filter_fst_nil {β γ : Type} [DecidableEq β] (R : List β)
    (D : List γ) (r : β) (hr : r ∉ R) :
    (R ×ˢ D).filter (fun p => p.1 = r) = [] := by
  apply List.eq_nil_iff_forall_not_mem.2
  intro p hp
  rcases List.mem_filter.1 hp with ⟨hpmem, hpr⟩
  obtain ⟨a, b⟩ := p
  apply hr
  have hab : a = r := by simpa using hpr
  exact hab ▸ (List.mem_product.1 hpmem).1

/-- Filtering the cross join to one first component recovers exactly one copy
of the second factor. -/
theorem product_filter_fst {β γ : Type} [DecidableEq β] (R : List β)
    (D : List γ) (hR : R.Nodup) (r : β) (hr : r ∈ R) :
    (R ×ˢ D).filter (fun p => p.1 = r) = D.map (fun d => (r, d)) := by
  induction R with
  | nil => cases hr
  | cons a as ih =>
    rw [List.product_cons, List.filter_append]
    rcases List.mem_cons.1 hr with heq | hras
    · rw [heq]
      have h1 : (D.map (a, ·)).filter (fun p : β × γ => p.1 = a)
          = D.map (fun d => (a, d)) := by
        apply List.filter_eq_self.2
        intro p hp
        rcases List.mem_map.1 hp with ⟨d, hd, rfl⟩
        simp
      have h2 : (as ×ˢ D).filter (fun p : β × γ => p.1 = a) = [] :=
        product_filter_fst_nil as D a (List.nodup_cons.1 hR).1
      rw [h1, h2, List.append_nil]
    · have hra : ¬(a = r) := fun h => (List.nodup_cons.1 hR).1 (h ▸ hras)
      have h1 : (D.map (a, ·)).filter (fun p : β × γ => p.1 = r) = [] := by
        apply List.eq_nil_iff_forall_not_mem.2
        intro p hp
        rcases List.mem_filter.1 hp with ⟨hpm, hpr⟩
        rcases List.mem_map.1 hpm with ⟨d, hd, rfl⟩
        exact hra (by simpa using hpr)
      rw [h1, List.nil_append]
      exact ih (List.nodup_cons.1 hR).2 hras

/-! ### Position counts by round —
`DataService.get_position_draft_counts_by_round` (C8) -/

inductive AggregationType
  | mean
  | median
deriving Repr, DecidableEq

/-- Embeds `df.filter(pl.col("Position") == position.value)`. -/
def position_df (df : List Pick) (pos : String) : List Pick :=
  df.filter (fun r => r.Position = pos)

/-- Step 1: players of the position counted per (round, draft). -/
def counts_per_draft (df : List Pick) (pos : String) :
    List ((Int × Int) × ℚ) :=
  (groupByKey (fun r => (r.round, r.draft)) (position_df df pos)).map
    (fun g => (g.1, (g.2.length : ℚ)))

/-- Embeds `df.select(pl.col("round").unique()).sort("round")`. -/
def all_rounds (df : List Pick) : List Int :=
  List.insertionSort (ordByKey (fun n : Int => n))
    (firstKeys (df.map (fun r => r.round)))

/-- Embeds `df.select(pl.col("draft").unique())`. -/
def all_drafts (df : List Pick) : List Int :=
  firstKeys (df.map (fun r => r.draft))

/-- Step 3: the left join of the grid against the actual counts with nulls
filled to zero. -/
def roundCell (df : List Pick) (pos : String) (rd : Int × Int) : ℚ :=
  (lookupKey (counts_per_draft df pos) rd).getD 0

/-- Embeds `DataService.get_position_draft_counts_by_round`: early-return `[]` when
the dataset has no teams, then the full rounds × drafts cross join, zero-fill
join, per-round aggregation (mean or median) and round sort. -/
def get_position_draft_counts_by_round (df : List Pick) (pos : String)
    (agg : AggregationType) : List (Int × ℚ) :=
  if (firstKeys (df.map (fun r => r.team_id))).length = 0 then []
  else
    List.insertionSort (ordByKey (fun rc : Int × ℚ => rc.1))
      ((groupByKey (fun c : (Int × Int) × ℚ => c.1.1)
        ((all_rounds df ×ˢ all_drafts df).map
          (fun rd => (rd, roundCell df pos rd)))).map
        (fun g =>
          (g.1,
            match agg with
            | AggregationType.mean => ratMeanQ (g.2.map (fun c => c.2))
            | AggregationType.median =>
              (ratMedian (g.2.map (fun c => c.2))).getD 0)))

theorem lookup_groupByKey_len {α β : Type} [DecidableEq β] (key : α → β)
    (l : List α) (k : β) :
    (lookupKey ((groupByKey key l).map (fun g => (g.1, (g.2.length : ℚ)))) k).getD 0
      = ((l.filter (fun a => key a = k)).length : ℚ) := by
  have hform : (groupByKey key l).map (fun g => (g.1, (g.2.length : ℚ)))
      = (firstKeys (l.map key)).map
        (fun k' => (k', ((l.filter (fun a => key a = k')).length : ℚ))) := by
    unfold groupByKey
    rw [List.map_map]
    rfl
  rw [hform, lookupKey_keys]
  by_cases hk : k ∈ firstKeys (l.map key)
  · rw [if_pos hk]
    rfl
  · rw [if_neg hk]
    have hnil : l.filter (fun a => key a = k) = [] := by
      apply List.eq_nil_iff_forall_not_mem.2
      intro a ha
      rcases List.mem_filter.1 ha with ⟨hal, hk'⟩
      exact hk ((firstKeys_mem _ _).2
        (List.mem_map.2 ⟨a, hal, by simpa using hk'⟩))
    rw [hnil]
    simp

/-- The key step of C8 in isolation: over any duplicate-free round list and
non-empty draft list, summing the per-round means of the value grid and
multiplying by the draft count recovers the total grid mass. -/
theorem grid_mean_mass (R D : List Int) (hR : R.Nodup) (hD : D ≠ [])
    (v : Int × Int → ℚ) :
    ((groupByKey (fun c : (Int × Int) × ℚ => c.1.1)
        ((R ×ˢ D).map (fun rd => (rd, v rd)))).map
        (fun g => ratMeanQ (g.2.map (fun c => c.2)))).sum * (D.length : ℚ)
      = ((R ×ˢ D).map v).sum := by
  have hDq : (D.length : ℚ) ≠ 0 := by
    simp only [ne_eq, Nat.cast_eq_zero]
    exact fun h => hD (List.length_eq_zero.1 h)
  rw [sum_map_mul_right]
  have hgroup : ∀ g ∈ groupByKey (fun c : (Int × Int) × ℚ => c.1.1)
      ((R ×ˢ D).map (fun rd => (rd, v rd))),
      ratMeanQ (g.2.map (fun c => c.2)) * (D.length : ℚ)
        = (g.2.map (fun c => c.2)).sum := by
    intro g hg
    have hkey : g.1 ∈ R := by
      have h1 := groupByKey_key_mem _ _ g hg
      rcases List.mem_map.1 h1 with ⟨c, hc, hck⟩
      rcases List.mem_map.1 hc with ⟨rd, hrd, rfl⟩
      obtain ⟨x, y⟩ := rd
      rw [← hck]
      exact (List.mem_product.1 hrd).1
    have hrows := groupByKey_rows _ _ g hg
    have hfil : ((R ×ˢ D).map (fun rd => (rd, v rd))).filter
        (fun c => c.1.1 = g.1)
        = D.map (fun d => ((g.1, d), v (g.1, d))) := by
      rw [filter_map_comm, product_filter_fst R D hR g.1 hkey, List.map_map]
      rfl
    rw [hrows, hfil, List.map_map]
    show ratMeanQ (D.map (fun d => v (g.1, d))) * (D.length : ℚ)
      = (D.map (fun d => v (g.1, d))).sum
    unfold ratMeanQ
    rw [List.length_map, div_mul_cancel₀ _ hDq]
  calc ((groupByKey (fun c : (Int × Int) × ℚ => c.1.1)
        ((R ×ˢ D).map (fun rd => (rd, v rd)))).map
        (fun g => ratMeanQ (g.2.map (fun c => c.2)) * (D.length : ℚ))).sum
      = ((groupByKey (fun c : (Int × Int) × ℚ => c.1.1)
        ((R ×ˢ D).map (fun rd => (rd, v rd)))).map
        (fun g => (g.2.map (fun c => c.2)).sum)).sum := by
        rw [List.map_congr_left hgroup]
    _ = (((R ×ˢ D).map (fun rd => (rd, v rd))).map (fun c => c.2)).sum :=
        sum_groupByKey_vals _ _ _
    _ = ((R ×ˢ D).map v).sum := by
        rw [List.map_map]
        rfl

/-- C8: with mean aggregation, the sum over all rounds of the zero-filled
per-round mean count, multiplied by the number of distinct drafts, equals the
total number of picks of the position — exactly, in rational arithmetic. -/
theorem position_round_mean_mass (df : List Pick) (pos : String)
    (hdf : df ≠ []) :
    ((get_position_draft_counts_by_round df pos AggregationType.mean).map
        (fun rc => rc.2)).sum * ((all_drafts df).length : ℚ)
      = ((position_df df pos).length : ℚ) := by
  have htd : ¬((firstKeys (df.map (fun r => r.team_id))).length = 0) := by
    intro h
    exact hdf (List.map_eq_nil_iff.1
      ((firstKeys_eq_nil_iff _).1 (List.length_eq_zero.1 h)))
  have hRnodup : (all_rounds df).Nodup :=
    (List.perm_insertionSort _ _).nodup_iff.2 (firstKeys_nodup _)
  have hDne : all_drafts df ≠ [] := by
    intro h
    exact hdf (List.map_eq_nil_iff.1 ((firstKeys_eq_nil_iff _).1 h))
  unfold get_position_draft_counts_by_round
  rw [if_neg htd]
  rw [((List.perm_insertionSort (ordByKey (fun rc : Int × ℚ => rc.1))
    _).map (fun rc : Int × ℚ => rc.2)).sum_eq]
  rw [List.map_map]
  show ((groupByKey (fun c : (Int × Int) × ℚ => c.1.1)
      ((all_rounds df ×ˢ all_drafts df).map
        (fun rd => (rd, roundCell df pos rd)))).map
      (fun g => ratMeanQ (g.2.map (fun c => c.2)))).sum
      * ((all_drafts df).length : ℚ)
    = ((position_df df pos).length : ℚ)
  rw [grid_mean_mass (all_rounds df) (all_drafts df) hRnodup hDne
    (roundCell df pos)]
  have hpoint : ∀ rd ∈ all_rounds df ×ˢ all_drafts df,
      roundCell df pos rd
        = (((position_df df pos).filter
            (fun r => (r.round, r.draft) = rd)).map (fun _ => (1 : ℚ))).sum := by
    intro rd _
    rw [sum_map_one]
    exact lookup_groupByKey_len (fun r => (r.round, r.draft))
      (position_df df pos) rd
  rw [List.map_congr_left hpoint]
  have hcov : ∀ r ∈ position_df df pos,
      (r.round, r.draft) ∈ all_rounds df ×ˢ all_drafts df := by
    intro r hr
    have hrdf : r ∈ df := (List.mem_filter.1 hr).1
    apply List.mem_product.2
    constructor
    · apply (List.mem_insertionSort _).2
      exact (firstKeys_mem _ _).2 (List.mem_map.2 ⟨r, hrdf, rfl⟩)
    · exact (firstKeys_mem _ _).2 (List.mem_map.2 ⟨r, hrdf, rfl⟩)
  rw [sum_filter_sum (all_rounds df ×ˢ all_drafts df)
    (hRnodup.product (firstKeys_nodup _))
    (fun r => (r.round, r.draft)) (fun _ => (1 : ℚ)) (position_df df pos) hcov]
  exact sum_map_one _

/-- C8 witness: the mass identity holds on the (non-empty) fixture dataset
for the QB position. -/
theorem position_round_mean_mass_witness :
    sampleDf ≠ []
    ∧ ((get_position_draft_counts_by_round sampleDf "QB"
          AggregationType.mean).map (fun rc => rc.2)).sum
        * ((all_drafts sampleDf).length : ℚ)
      = ((position_df sampleDf "QB").length : ℚ) :=
  ⟨by decide, position_round_mean_mass sampleDf "QB" (by decide)⟩
